import Mathlib

/-!
Verification of the AXI Stream FIFO ramp-waveform streamer
(`src/wksp/AWG_Example/src/helloworld.c`).

The development shallowly embeds the two components of the program:

* `GenerateRampWave` — the waveform generator.  The C code computes the
  ramp amplitudes in IEEE-754 single precision (`float`), so the embedding
  models binary32 round-to-nearest-even arithmetic exactly over `ℚ`
  (the exponent range of binary32 is never exercised outside the normal
  range by this program, so an unbounded-exponent model coincides with
  IEEE semantics on every value the program computes; division by zero and
  the undefined `float`→`u32` conversion of NaN/out-of-range values are
  modelled by `Option`).
* the `main` streaming loop — embedded as a state-passing interpreter over
  an abstract peripheral capability (`XLlFifo`), recording the trace of
  driver calls so that call-order properties can be stated.  The driver
  itself (`xllfifo.h`) is outside the repository, so the peripheral is a
  record of opaque operations and the fault bit-mask
  (`XLLF_INT_ERROR_MASK`, defined in the absent header) is a parameter.
-/

set_option maxRecDepth 40000
set_option maxHeartbeats 1000000

section Spec2Proof

attribute [local semireducible] Rat.mul Rat.inv Rat.add Rat.sub

/-! ## Binary32 round-to-nearest-even over ℚ -/

/-- Fuel-driven floor base-2 logarithm of a natural number:
`nlog2 fuel n` is the largest `e` with `2 ^ e ≤ n`, provided
`1 ≤ n < 2 ^ fuel`. -/
def nlog2 : ℕ → ℕ → ℕ
  | 0, _ => 0
  | fuel + 1, n => if 2 ≤ n then nlog2 fuel (n / 2) + 1 else 0

/-- Fuel-driven ceiling base-2 logarithm of a natural number:
`nclog2 fuel n` is the smallest `k` with `n ≤ 2 ^ k`, provided
`1 ≤ n ≤ 2 ^ fuel`. -/
def nclog2 : ℕ → ℕ → ℕ
  | 0, _ => 0
  | fuel + 1, n => if 2 ≤ n then nclog2 fuel ((n + 1) / 2) + 1 else 0

/-- Floor base-2 logarithm of a positive rational: the unique `e` with
`2 ^ e ≤ q < 2 ^ (e + 1)` (correct for `2 ^ (-64) ≤ q < 2 ^ 64`,
which covers every quantity the program computes). -/
def flog (q : ℚ) : ℤ :=
  if 1 ≤ q then (nlog2 64 (Int.toNat ⌊q⌋) : ℤ)
  else -(nclog2 64 (Int.toNat ⌈q⁻¹⌉) : ℤ)

/-- Round a rational to an integer, half to even (the IEEE-754 default
tie-breaking rule). -/
def rhe (x : ℚ) : ℤ :=
  if x - ⌊x⌋ < 1 / 2 then ⌊x⌋
  else if 1 / 2 < x - ⌊x⌋ then ⌊x⌋ + 1
  else if Even ⌊x⌋ then ⌊x⌋ else ⌊x⌋ + 1

/-- Binary32 round-to-nearest-even of a nonnegative rational, with
unbounded exponent (no overflow/underflow — the program never leaves the
normal range).  `rnd32 q` is the 24-bit-significand dyadic nearest to `q`. -/
def rnd32 (q : ℚ) : ℚ :=
  if q ≤ 0 then 0
  else (rhe (q * 2 ^ (23 - flog q)) : ℚ) * 2 ^ (flog q - 23)

/-- Rationals in the window on which `flog` (fuel 64) is exact. -/
def InRangeQ (q : ℚ) : Prop := 2 ^ (-(64 : ℤ)) ≤ q ∧ q < 2 ^ (64 : ℤ)

/-! ## Waveform generator (`GenerateRampWave`) -/

/-- `MAX_COUNT = 0x3FFF`: 14-bit counter maximum, from the C source. -/
def MAX_COUNT : ℕ := 0x3FFF

/-- Modulus of the C `u32` type. -/
def U32_MOD : ℕ := 2 ^ 32

/-- The `u32` expression `NumSamples - 2` (wrapped subtraction). -/
def u32sub2 (n : ℕ) : ℕ := (n + (U32_MOD - 2)) % U32_MOD

/-- The `u32` expression `NumSamples - 1` (wrapped subtraction). -/
def u32sub1 (n : ℕ) : ℕ := (n + (U32_MOD - 1)) % U32_MOD

/-- `scaleFactor = (float)MAX_COUNT / (NumSamples - 2)`.
`none` models the IEEE result `+inf` of dividing by zero (`NumSamples = 2`);
otherwise the `u32` divisor is converted to `float` and the single-precision
quotient is correctly rounded. -/
def scaleFactor (NumSamples : ℕ) : Option ℚ :=
  let d := u32sub2 NumSamples
  if d = 0 then none
  else some (rnd32 ((MAX_COUNT : ℚ) / rnd32 (d : ℚ)))

/-- The single-precision value `(i * scaleFactor) + 0.5f`:
`fl(fl(fl(i) * sf) + 0.5)` for a finite scale factor `sf`. -/
def rampS (i : ℕ) (sf : ℚ) : ℚ := rnd32 (rnd32 (rnd32 (i : ℚ) * sf) + 1 / 2)

/-- `rampValue = (u32)((i * scaleFactor) + 0.5f)` for a non-final index.
`none` models undefined behaviour of the `float`→`u32` cast: the operand is
NaN or `+inf` (when `scaleFactor` was `+inf`) or its integral part does not
fit in 32 bits. -/
def rampValue (NumSamples i : ℕ) : Option ℕ :=
  (scaleFactor NumSamples).bind fun sf =>
    if (⌊rampS i sf⌋).toNat < U32_MOD then some ((⌊rampS i sf⌋).toNat) else none

/-- The word stored into `Buffer[i]` by one iteration of the generator
loop: `0` for the final sample, otherwise the clamped ramp value shifted
to bits 31:18. -/
def sampleWord (NumSamples i : ℕ) : Option ℕ :=
  if i = u32sub1 NumSamples then some 0
  else (rampValue NumSamples i).map fun rv => (min rv MAX_COUNT) * 2 ^ 18 % U32_MOD

/-- `GenerateRampWave(Buffer, NumSamples)`: the loop
`for (i = 0; i < NumSamples; i++) Buffer[i] = shiftedValue;`.
`none` propagates the undefined cast. -/
def GenerateRampWave (Buffer : List ℕ) (NumSamples : ℕ) : Option (List ℕ) :=
  (List.range NumSamples).foldlM (fun b i => (sampleWord NumSamples i).map (b.set i)) Buffer

/-! ## Spec-side formula (for refinement comparison only)

The spec (§4.1, §8) describes the amplitude in exact real arithmetic:
`amplitude = round(i * (16383 / (N - 2)))` with `round(x) = floor(x + 0.5)`,
clamped to `[0, MAX_COUNT]`.  These definitions transcribe that formula
literally; they are *not* part of the embedding of the C code. -/

/-- The spec's amplitude formula in exact rational arithmetic. -/
def specAmplitude (N i : ℕ) : ℤ :=
  min (max ⌊(i : ℚ) * ((16383 : ℚ) / ((N : ℚ) - 2)) + 1 / 2⌋ 0) 16383

/-- The spec's word formula: the exact-arithmetic amplitude shifted to
bits 31:18. -/
def specWord (N i : ℕ) : ℤ := specAmplitude N i * 2 ^ 18

/-! ## Streaming controller (`main`) -/

/-- One observable driver call made by the controller, with the value
returned (for queries) or passed (for commands). -/
inductive Event where
  | queryVacancy (result : ℕ)
  | pushWord (w : ℕ)
  | commitFrameLength (lenBytes : ℕ)
  | queryStatus (result : ℕ)
  | clearFaults (mask : ℕ)
deriving DecidableEq, Repr

/-- The two fatal-termination diagnostics of the loop. -/
inductive Failure where
  | insufficientCapacity (needed available : ℕ)
  | transmissionFault (statusBits : ℕ)
deriving DecidableEq, Repr

/-- The peripheral capability: the driver operations `main` calls, as
opaque state transformers over an abstract device state `σ`.  Query
results are natural numbers, reduced mod `2 ^ 32` at the call site
(hardware registers are 32 bits wide). -/
structure XLlFifo (σ : Type) where
  reset : σ → σ
  intClear : ℕ → σ → σ
  status : σ → ℕ × σ
  iTxVacancy : σ → ℕ × σ
  txPutWord : ℕ → σ → σ
  txSetLen : ℕ → σ → σ

/-- Conversion of a `u32` register value to the C `int` it is assigned to
(two's complement, as on the ARM target). -/
def toI32 (v : ℕ) : ℤ :=
  if v % U32_MOD < 2 ^ 31 then (v % U32_MOD : ℤ) else (v % U32_MOD : ℤ) - (U32_MOD : ℤ)

/-- `NUM_SAMPLES` from the C source. -/
def NUM_SAMPLES : ℕ := 256

/-- `XST_SUCCESS` (xstatus.h). -/
def XST_SUCCESS : ℤ := 0

/-- `XST_FAILURE` (xstatus.h). -/
def XST_FAILURE : ℤ := 1

/-- The inner push loop
`for (i = 0; i < NUM_SAMPLES; i++) XLlFifo_TxPutWord(&FifoInstance, TxBuffer[i]);`,
threading the device state and recording one `pushWord` event per call. -/
def pushWords (P : XLlFifo σ) (Buffer : List ℕ) : List ℕ → σ → σ × List Event
  | [], s => (s, [])
  | i :: rest, s =>
    let w := Buffer.getD i 0
    let out := pushWords P Buffer rest (P.txPutWord w s)
    (out.1, Event.pushWord w :: out.2)

/-- One iteration of the `while(1)` loop in `main`: vacancy check
(fatal if `Status < NUM_SAMPLES` as a signed `int`), push of all
`NumSamples` words, frame-length commit, then status check (fatal if any
bit of `errMask` is set, after clearing those bits). -/
def loopIter (P : XLlFifo σ) (errMask NumSamples : ℕ) (Buffer : List ℕ)
    (frameLen : ℕ) (s : σ) : Option Failure × σ × List Event :=
  let q := P.iTxVacancy s
  let v := q.1 % U32_MOD
  if toI32 q.1 < (NumSamples : ℤ) then
    (some (.insufficientCapacity NumSamples v), q.2, [.queryVacancy v])
  else
    let pushed := pushWords P Buffer (List.range NumSamples) q.2
    let s3 := P.txSetLen frameLen pushed.1
    let st := P.status s3
    let stv := st.1 % U32_MOD
    if stv &&& errMask ≠ 0 then
      (some (.transmissionFault stv), P.intClear errMask st.2,
        .queryVacancy v :: pushed.2
          ++ [.commitFrameLength frameLen, .queryStatus stv, .clearFaults errMask])
    else
      (none, st.2, .queryVacancy v :: pushed.2
          ++ [.commitFrameLength frameLen, .queryStatus stv])

/-- The `while(1)` loop, run for at most `fuel` iterations.  A `some`
failure is the value `return`ed from inside the loop; `none` means the
loop is still running after `fuel` iterations (the loop condition is the
constant `1`, so it can never exit normally). -/
def runLoop (P : XLlFifo σ) (errMask NumSamples : ℕ) (Buffer : List ℕ)
    (frameLen : ℕ) : ℕ → σ → Option Failure × σ × List Event
  | 0, s => (none, s, [])
  | fuel + 1, s =>
    let r := loopIter P errMask NumSamples Buffer frameLen s
    match r.1 with
    | some _ => r
    | none =>
      let rest := runLoop P errMask NumSamples Buffer frameLen fuel r.2.1
      (rest.1, rest.2.1, r.2.2 ++ rest.2.2)

/-- The zero-initialized global `u32 TxBuffer[NUM_SAMPLES]`. -/
def TxBuffer0 : List ℕ := List.replicate NUM_SAMPLES 0

/-- `TxFrameLength = NUM_SAMPLES * 4` (frame length in bytes). -/
def TxFrameLength : ℕ := NUM_SAMPLES * 4

/-- The buffer contents after `GenerateRampWave(TxBuffer, NUM_SAMPLES)`
in `main` (the generator succeeds for `NUM_SAMPLES = 256`, proved below). -/
def mainTxBuffer : List ℕ := (GenerateRampWave TxBuffer0 NUM_SAMPLES).getD TxBuffer0

/-- `main` after initialization: reset, clear all interrupt bits, read
(and discard) the status, then stream `mainTxBuffer` forever. -/
def mainRun (P : XLlFifo σ) (errMask fuel : ℕ) (s0 : σ) :
    Option Failure × σ × List Event :=
  let s1 := P.intClear 0xffffffff (P.reset s0)
  let s2 := (P.status s1).2
  runLoop P errMask NUM_SAMPLES mainTxBuffer TxFrameLength fuel s2

/-- The `int` value `main` returns for a loop outcome: both fatal paths
execute `return XST_FAILURE;`; `none` means it has not returned. -/
def returnCode : Option Failure → Option ℤ
  | none => none
  | some _ => some XST_FAILURE

/-- The push events of one frame: the buffer words in index order. -/
def frameEvents (Buffer : List ℕ) (n : ℕ) : List Event :=
  (List.range n).map fun i => Event.pushWord (Buffer.getD i 0)

/-- Recogniser for push events. -/
def isPushE : Event → Bool
  | .pushWord _ => true
  | _ => false

/-- A mock peripheral with constant vacancy and status readings, used to
exhibit concrete executions. -/
def mockFifo (vac st : ℕ) : XLlFifo Unit where
  reset := id
  intClear := fun _ _ => ()
  status := fun _ => (st, ())
  iTxVacancy := fun _ => (vac, ())
  txPutWord := fun _ _ => ()
  txSetLen := fun _ _ => ()

/-! ## Correctness of the rounding primitives -/

theorem nlog2_spec (fuel : ℕ) : ∀ n, 1 ≤ n → n < 2 ^ fuel →
    2 ^ nlog2 fuel n ≤ n ∧ n < 2 ^ (nlog2 fuel n + 1) := by
  induction fuel with
  | zero => intro n h1 h2; simp only [pow_zero] at h2; omega
  | succ fuel ih =>
    intro n h1 h2
    rw [nlog2]
    by_cases h : 2 ≤ n
    · rw [if_pos h]
      have hd2 : n / 2 < 2 ^ fuel := by
        have hp : (2:ℕ) ^ (fuel + 1) = 2 ^ fuel * 2 := by ring
        rw [hp] at h2; omega
      obtain ⟨l1, l2⟩ := ih (n / 2) (by omega) hd2
      have e1 : (2:ℕ) ^ (nlog2 fuel (n / 2) + 1) = 2 * 2 ^ nlog2 fuel (n / 2) := by ring
      have e2 : (2:ℕ) ^ (nlog2 fuel (n / 2) + 1 + 1) = 2 * 2 ^ (nlog2 fuel (n / 2) + 1) := by
        ring
      omega
    · rw [if_neg h]; simp only [pow_zero, pow_one]; omega

theorem nclog2_spec (fuel : ℕ) : ∀ n, 1 ≤ n → n ≤ 2 ^ fuel →
    n ≤ 2 ^ nclog2 fuel n ∧ 2 ^ nclog2 fuel n < 2 * n := by
  induction fuel with
  | zero => intro n h1 h2; simp only [pow_zero] at h2; interval_cases n; simp [nclog2]
  | succ fuel ih =>
    intro n h1 h2
    rw [nclog2]
    by_cases h : 2 ≤ n
    · rw [if_pos h]
      have hd2 : (n + 1) / 2 ≤ 2 ^ fuel := by
        have hp : (2:ℕ) ^ (fuel + 1) = 2 ^ fuel * 2 := by ring
        rw [hp] at h2; omega
      obtain ⟨l1, l2⟩ := ih ((n + 1) / 2) (by omega) hd2
      set K := nclog2 fuel ((n + 1) / 2) with hK
      have e1 : (2:ℕ) ^ (K + 1) = 2 * 2 ^ K := by ring
      constructor
      · omega
      · -- `2 ^ (K + 1) < 2 * n`, i.e. `2 ^ K < n`
        rw [e1]
        have hKle : 2 ^ K ≤ n := by omega
        rcases Nat.lt_or_ge (2 ^ K) n with hlt | hge
        · omega
        · -- `2 ^ K = n`; impossible: `n` would be an odd power of two `≥ 3` or `n = 2` works out
          have heq : 2 ^ K = n := by omega
          rcases Nat.even_or_odd n with he | ho
          · obtain ⟨m, hm⟩ := he; omega
          · -- n odd, `n ≥ 2` so `n ≥ 3`, hence `(n+1)/2 ≥ 2`, hence `K ≥ 1`, so `2 ^ K` is even
            obtain ⟨m, hm⟩ := ho
            rcases K with _ | K'
            · simp only [pow_zero] at heq; omega
            · have : (2:ℕ) ^ (K' + 1) = 2 * 2 ^ K' := by ring
              omega
    · rw [if_neg h]; simp only [pow_zero]; omega

theorem two_zpow_natCast (n : ℕ) : (2:ℚ) ^ (n : ℤ) = 2 ^ n := zpow_natCast 2 n

theorem flog_spec {q : ℚ} (hq : 0 < q) (h1 : 2 ^ (-(64:ℤ)) ≤ q) (h2 : q < 2 ^ (64:ℤ)) :
    (2:ℚ) ^ flog q ≤ q ∧ q < 2 ^ (flog q + 1) := by
  have hN : ((2:ℚ) ^ (64:ℤ)) = ((2 ^ 64 : ℕ) : ℚ) := by norm_num
  rw [flog]
  by_cases h : 1 ≤ q
  · rw [if_pos h]
    set n := (⌊q⌋).toNat with hn
    have hfl1 : (1:ℤ) ≤ ⌊q⌋ := Int.le_floor.2 (by exact_mod_cast h)
    have hfc : ((n:ℚ)) = ((⌊q⌋ : ℤ) : ℚ) := by
      rw [hn, ← Int.cast_natCast, Int.toNat_of_nonneg (by omega)]
    have hnle : (n:ℚ) ≤ q := by rw [hfc]; exact Int.floor_le q
    have hlt : q < (n:ℚ) + 1 := by rw [hfc]; exact Int.lt_floor_add_one q
    have h1n : 1 ≤ n := by omega
    have hn64 : n < 2 ^ 64 := by
      have hcast : (n:ℚ) < ((2 ^ 64 : ℕ) : ℚ) := by rw [← hN]; linarith
      exact_mod_cast hcast
    obtain ⟨l1, l2⟩ := nlog2_spec 64 n h1n hn64
    set L := nlog2 64 n with hL
    constructor
    · rw [two_zpow_natCast]
      calc ((2:ℚ) ^ L) = ((2 ^ L : ℕ) : ℚ) := by push_cast; ring
        _ ≤ (n:ℚ) := by exact_mod_cast l1
        _ ≤ q := hnle
    · rw [show ((L:ℤ) + 1 = (((L + 1 : ℕ)) : ℤ)) by push_cast; ring, two_zpow_natCast]
      calc q < (n:ℚ) + 1 := hlt
        _ ≤ ((2 ^ (L + 1) : ℕ) : ℚ) := by exact_mod_cast Nat.succ_le_of_lt l2
        _ = (2:ℚ) ^ (L + 1) := by push_cast; ring
  · rw [if_neg h]
    push_neg at h
    have hr1 : 1 < q⁻¹ := (one_lt_inv₀ hq).2 h
    have hr0 : 0 < q⁻¹ := by positivity
    set m := (⌈q⁻¹⌉).toNat with hm
    have hc1 : (1:ℤ) < ⌈q⁻¹⌉ := Int.lt_ceil.2 (by exact_mod_cast hr1)
    have hmc : ((m:ℚ)) = ((⌈q⁻¹⌉ : ℤ) : ℚ) := by
      rw [hm, ← Int.cast_natCast, Int.toNat_of_nonneg (by omega)]
    have h1m : 2 ≤ m := by omega
    have hrle : q⁻¹ ≤ (m:ℚ) := by rw [hmc]; exact Int.le_ceil q⁻¹
    have hmlt : (m:ℚ) < q⁻¹ + 1 := by rw [hmc]; exact Int.ceil_lt_add_one q⁻¹
    have hrN : q⁻¹ ≤ ((2 ^ 64 : ℕ) : ℚ) := by
      have h2neg : (2:ℚ) ^ (-(64:ℤ)) = (((2 ^ 64 : ℕ)) : ℚ)⁻¹ := by
        rw [zpow_neg, hN]
      rw [h2neg] at h1
      calc q⁻¹ ≤ ((((2 ^ 64 : ℕ) : ℚ))⁻¹)⁻¹ := inv_anti₀ (by positivity) h1
        _ = ((2 ^ 64 : ℕ) : ℚ) := inv_inv _
    have hm64 : m ≤ 2 ^ 64 := by
      have hcast : (m:ℚ) < ((2 ^ 64 : ℕ) : ℚ) + 1 := by linarith
      have hnat : m < 2 ^ 64 + 1 := by exact_mod_cast hcast
      omega
    obtain ⟨l1, l2⟩ := nclog2_spec 64 m (by omega) hm64
    set K := nclog2 64 m with hK
    have hKpow : ((2:ℚ) ^ ((K:ℕ) : ℤ)) = ((2 ^ K : ℕ) : ℚ) := by
      rw [zpow_natCast]; push_cast; ring
    have h2Kpos : (0:ℚ) < ((2 ^ K : ℕ) : ℚ) := by positivity
    constructor
    · rw [zpow_neg, hKpow]
      calc (((2 ^ K : ℕ) : ℚ))⁻¹ ≤ (q⁻¹)⁻¹ :=
            inv_anti₀ hr0 (le_trans hrle (by exact_mod_cast l1))
        _ = q := inv_inv q
    · have hK1 : 1 ≤ K := by
        by_contra hcon
        push_neg at hcon
        interval_cases K
        simp only [pow_zero] at l1
        omega
      have hKeven : (2:ℕ) ^ K = 2 * 2 ^ (K - 1) := by
        rw [← pow_succ']
        congr 1
        omega
      have hKle : (2:ℕ) ^ K ≤ 2 * m - 2 := by omega
      have hKlt : ((2 ^ K : ℕ) : ℚ) < 2 * q⁻¹ := by
        have h2m : ((2 * m - 2 : ℕ) : ℚ) = 2 * ((m:ℚ) - 1) := by
          have hle2 : 2 ≤ 2 * m := by omega
          push_cast [Nat.cast_sub hle2]
          ring
        calc ((2 ^ K : ℕ) : ℚ) ≤ ((2 * m - 2 : ℕ) : ℚ) := by exact_mod_cast hKle
          _ = 2 * ((m:ℚ) - 1) := h2m
          _ < 2 * q⁻¹ := by linarith
      have hmul : q * ((2 ^ K : ℕ) : ℚ) < 2 := by
        have hstep := mul_lt_mul_of_pos_left hKlt hq
        rwa [show q * (2 * q⁻¹) = 2 * (q * q⁻¹) by ring,
          mul_inv_cancel₀ (ne_of_gt hq), mul_one] at hstep
      calc q < 2 / ((2 ^ K : ℕ) : ℚ) := (lt_div_iff₀ h2Kpos).2 hmul
        _ = 2 ^ (-(K:ℤ) + 1) := by
          rw [zpow_add₀ (two_ne_zero), zpow_neg, hKpow, zpow_one]
          ring

theorem floor_le_rhe (x : ℚ) : ⌊x⌋ ≤ rhe x := by
  unfold rhe
  split_ifs <;> omega

theorem rhe_le_floor_add_one (x : ℚ) : rhe x ≤ ⌊x⌋ + 1 := by
  unfold rhe
  split_ifs <;> omega

theorem rhe_sub_le (x : ℚ) : x - 1 / 2 ≤ (rhe x : ℚ) := by
  have h0 : (⌊x⌋ : ℚ) ≤ x := Int.floor_le x
  have h1 : x < (⌊x⌋ : ℚ) + 1 := Int.lt_floor_add_one x
  unfold rhe
  split_ifs <;> push_cast <;> linarith

theorem rhe_le_add (x : ℚ) : (rhe x : ℚ) ≤ x + 1 / 2 := by
  have h0 : (⌊x⌋ : ℚ) ≤ x := Int.floor_le x
  have h1 : x < (⌊x⌋ : ℚ) + 1 := Int.lt_floor_add_one x
  unfold rhe
  split_ifs <;> push_cast <;> linarith

theorem rhe_mono {x y : ℚ} (h : x ≤ y) : rhe x ≤ rhe y := by
  have hfl : ⌊x⌋ ≤ ⌊y⌋ := Int.floor_le_floor h
  rcases eq_or_lt_of_le hfl with heq | hlt
  · unfold rhe
    rw [← heq]
    split_ifs <;> first | omega | linarith
  · calc rhe x ≤ ⌊x⌋ + 1 := rhe_le_floor_add_one x
      _ ≤ ⌊y⌋ := by omega
      _ ≤ rhe y := floor_le_rhe y

theorem rnd32_zero : rnd32 0 = 0 := by simp [rnd32]

theorem rnd32_nonneg (q : ℚ) : 0 ≤ rnd32 q := by
  unfold rnd32
  split_ifs with h
  · exact le_refl 0
  · push_neg at h
    have ht : 0 ≤ q * 2 ^ (23 - flog q) := by positivity
    have h1 : (0:ℤ) ≤ rhe (q * 2 ^ (23 - flog q)) := by
      have h2 := floor_le_rhe (q * 2 ^ (23 - flog q))
      have h3 : (0:ℤ) ≤ ⌊q * 2 ^ (23 - flog q)⌋ := Int.floor_nonneg.2 ht
      omega
    have h4 : (0:ℚ) ≤ (rhe (q * 2 ^ (23 - flog q)) : ℚ) := by exact_mod_cast h1
    exact mul_nonneg h4 (by positivity)

theorem rnd32_of_pos {q : ℚ} (hq : 0 < q) :
    rnd32 q = (rhe (q * 2 ^ (23 - flog q)) : ℚ) * 2 ^ (flog q - 23) := by
  rw [rnd32, if_neg (not_le.2 hq)]

theorem rnd32_bounds {q : ℚ} (hq : 0 < q) (hR : InRangeQ q) :
    q * (1 - 2 ^ (-(24:ℤ))) ≤ rnd32 q ∧ rnd32 q ≤ q * (1 + 2 ^ (-(24:ℤ))) := by
  obtain ⟨e1, e2⟩ := flog_spec hq hR.1 hR.2
  set e := flog q with he
  have hc : (2:ℚ) ^ (23 - e) * 2 ^ (e - 23) = 1 := by
    rw [← zpow_add₀ (two_ne_zero)]
    norm_num
  have hdpos : (0:ℚ) < 2 ^ (e - 23) := by positivity
  set t := q * 2 ^ (23 - e) with ht
  have hup : (rhe t : ℚ) ≤ t + 1 / 2 := rhe_le_add t
  have hlo : t - 1 / 2 ≤ (rhe t : ℚ) := rhe_sub_le t
  have htq : t * 2 ^ (e - 23) = q := by
    rw [ht, mul_assoc, hc, mul_one]
  have hepsq : (2:ℚ) ^ (e - 23) * (1 / 2) = 2 ^ (e - 24) := by
    rw [show (1 / 2 : ℚ) = 2 ^ (-(1:ℤ)) by norm_num, ← zpow_add₀ (two_ne_zero)]
    congr 1
    ring
  have hepsle : (2:ℚ) ^ (e - 24) ≤ q * 2 ^ (-(24:ℤ)) := by
    have h24 : (0:ℚ) < 2 ^ (-(24:ℤ)) := by positivity
    calc (2:ℚ) ^ (e - 24) = 2 ^ e * 2 ^ (-(24:ℤ)) := by
          rw [← zpow_add₀ (two_ne_zero), sub_eq_add_neg]
      _ ≤ q * 2 ^ (-(24:ℤ)) := mul_le_mul_of_nonneg_right e1 (le_of_lt h24)
  constructor
  · rw [rnd32_of_pos hq, ← he, ← ht]
    calc q * (1 - 2 ^ (-(24:ℤ))) = q - q * 2 ^ (-(24:ℤ)) := by ring
      _ ≤ q - 2 ^ (e - 24) := by linarith
      _ = t * 2 ^ (e - 23) - 2 ^ (e - 23) * (1 / 2) := by rw [htq, hepsq]
      _ = (t - 1 / 2) * 2 ^ (e - 23) := by ring
      _ ≤ (rhe t : ℚ) * 2 ^ (e - 23) := mul_le_mul_of_nonneg_right hlo (le_of_lt hdpos)
  · rw [rnd32_of_pos hq, ← he, ← ht]
    calc (rhe t : ℚ) * 2 ^ (e - 23) ≤ (t + 1 / 2) * 2 ^ (e - 23) :=
          mul_le_mul_of_nonneg_right hup (le_of_lt hdpos)
      _ = t * 2 ^ (e - 23) + 2 ^ (e - 23) * (1 / 2) := by ring
      _ = q + 2 ^ (e - 24) := by rw [htq, hepsq]
      _ ≤ q + q * 2 ^ (-(24:ℤ)) := by linarith
      _ = q * (1 + 2 ^ (-(24:ℤ))) := by ring

theorem zpow_le_zpow_two {m n : ℤ} (h : m ≤ n) : (2:ℚ) ^ m ≤ 2 ^ n :=
  zpow_le_zpow_right₀ one_le_two h

theorem rnd32_mono {x y : ℚ} (hx : 0 ≤ x) (hxy : x ≤ y)
    (hxR : x = 0 ∨ InRangeQ x) (hyR : InRangeQ y) : rnd32 x ≤ rnd32 y := by
  rcases eq_or_lt_of_le hx with h0 | hpos
  · rw [← h0, rnd32_zero]
    exact rnd32_nonneg y
  · have hxIR : InRangeQ x := by
      rcases hxR with h | h
      · exact absurd h (ne_of_gt hpos)
      · exact h
    have hypos : 0 < y := lt_of_lt_of_le hpos hxy
    obtain ⟨ex1, ex2⟩ := flog_spec hpos hxIR.1 hxIR.2
    obtain ⟨ey1, ey2⟩ := flog_spec hypos hyR.1 hyR.2
    set ex := flog x with hex
    set ey := flog y with hey
    have hee : ex ≤ ey := by
      by_contra hcon
      push_neg at hcon
      have hstep : (2:ℚ) ^ (ey + 1) ≤ 2 ^ ex := zpow_le_zpow_two (by omega)
      linarith
    rcases eq_or_lt_of_le hee with heq | hlt
    · rw [rnd32_of_pos hpos, rnd32_of_pos hypos, ← hex, ← hey, ← heq]
      have hmul : x * 2 ^ (23 - ex) ≤ y * 2 ^ (23 - ex) :=
        mul_le_mul_of_nonneg_right hxy (by positivity)
      have hr := rhe_mono hmul
      have hrq : ((rhe (x * 2 ^ (23 - ex)) : ℤ) : ℚ) ≤ ((rhe (y * 2 ^ (23 - ex)) : ℤ) : ℚ) := by
        exact_mod_cast hr
      exact mul_le_mul_of_nonneg_right hrq (by positivity)
    · have s1 : rnd32 x ≤ 2 ^ (ex + 1) := by
        rw [rnd32_of_pos hpos, ← hex]
        set t := x * 2 ^ (23 - ex) with htdef
        have ht24 : t < 2 ^ (24:ℕ) := by
          have hc : (2:ℚ) ^ (ex + 1) * 2 ^ (23 - ex) = 2 ^ (24:ℕ) := by
            rw [← zpow_add₀ (two_ne_zero)]
            rw [show (ex + 1 + (23 - ex) : ℤ) = ((24:ℕ) : ℤ) by push_cast; ring]
            exact two_zpow_natCast 24
          calc t < 2 ^ (ex + 1) * 2 ^ (23 - ex) :=
                mul_lt_mul_of_pos_right ex2 (by positivity)
            _ = 2 ^ (24:ℕ) := hc
        have hrt : (rhe t : ℚ) ≤ 2 ^ (24:ℕ) := by
          have h1 := rhe_le_add t
          have h2 : (rhe t : ℚ) < 2 ^ (24:ℕ) + 1 := by linarith
          have h3 : rhe t < 2 ^ (24:ℕ) + 1 := by exact_mod_cast h2
          have h4 : rhe t ≤ 2 ^ (24:ℕ) := by omega
          exact_mod_cast h4
        have hc2 : (2:ℚ) ^ ((24:ℕ) : ℤ) * 2 ^ (ex - 23) = 2 ^ (ex + 1) := by
          rw [← zpow_add₀ (two_ne_zero)]
          congr 1
          push_cast
          ring
        calc (rhe t : ℚ) * 2 ^ (ex - 23) ≤ (2 ^ (24:ℕ)) * 2 ^ (ex - 23) :=
              mul_le_mul_of_nonneg_right hrt (by positivity)
          _ = 2 ^ ((24:ℕ) : ℤ) * 2 ^ (ex - 23) := by rw [two_zpow_natCast]
          _ = 2 ^ (ex + 1) := hc2
      have s2 : (2:ℚ) ^ (ex + 1) ≤ 2 ^ ey := zpow_le_zpow_two (by omega)
      have s3 : (2:ℚ) ^ ey ≤ rnd32 y := by
        rw [rnd32_of_pos hypos, ← hey]
        set t := y * 2 ^ (23 - ey) with htdef
        have ht23 : (2:ℚ) ^ (23:ℕ) ≤ t := by
          have hc : (2:ℚ) ^ ey * 2 ^ (23 - ey) = 2 ^ (23:ℕ) := by
            rw [← zpow_add₀ (two_ne_zero)]
            rw [show (ey + (23 - ey) : ℤ) = ((23:ℕ) : ℤ) by push_cast; ring]
            exact two_zpow_natCast 23
          calc (2:ℚ) ^ (23:ℕ) = 2 ^ ey * 2 ^ (23 - ey) := hc.symm
            _ ≤ t := mul_le_mul_of_nonneg_right ey1 (by positivity)
        have hrt : ((2:ℕ) ^ 23 : ℤ) ≤ rhe t := by
          have h1 : ((2 ^ 23 : ℤ) : ℚ) ≤ t := by exact_mod_cast ht23
          have h2 : (2 ^ 23 : ℤ) ≤ ⌊t⌋ := Int.le_floor.2 h1
          have h3 := floor_le_rhe t
          omega
        have hrtq : (2:ℚ) ^ (23:ℕ) ≤ (rhe t : ℚ) := by exact_mod_cast hrt
        have hc2 : (2:ℚ) ^ ((23:ℕ) : ℤ) * 2 ^ (ey - 23) = 2 ^ ey := by
          rw [← zpow_add₀ (two_ne_zero)]
          congr 1
          push_cast
          ring
        calc (2:ℚ) ^ ey = 2 ^ ((23:ℕ) : ℤ) * 2 ^ (ey - 23) := hc2.symm
          _ = (2 ^ (23:ℕ)) * 2 ^ (ey - 23) := by rw [two_zpow_natCast]
          _ ≤ (rhe t : ℚ) * 2 ^ (ey - 23) :=
              mul_le_mul_of_nonneg_right hrtq (by positivity)
      calc rnd32 x ≤ 2 ^ (ex + 1) := s1
        _ ≤ 2 ^ ey := s2
        _ ≤ rnd32 y := s3

/-! ## Generator lemmas -/

theorem two_zpow_neg64 : (2:ℚ) ^ (-(64:ℤ)) = 1 / 18446744073709551616 := by norm_num

theorem two_zpow_pos64 : (2:ℚ) ^ ((64:ℤ)) = 18446744073709551616 := by norm_num

theorem two_zpow_neg24 : (2:ℚ) ^ (-(24:ℤ)) = 1 / 16777216 := by norm_num

theorem two_zpow_neg34 : (2:ℚ) ^ (-(34:ℤ)) = 1 / 17179869184 := by norm_num

theorem u32sub2_eq {N : ℕ} (h2 : 2 ≤ N) (hN : N < U32_MOD) : u32sub2 N = N - 2 := by
  simp only [u32sub2, U32_MOD] at *
  omega

theorem u32sub1_eq {N : ℕ} (h1 : 1 ≤ N) (hN : N < U32_MOD) : u32sub1 N = N - 1 := by
  simp only [u32sub1, U32_MOD] at *
  omega

theorem scaleFactor_eq {N : ℕ} (h3 : 3 ≤ N) (hN : N < U32_MOD) :
    scaleFactor N = some (rnd32 ((MAX_COUNT : ℚ) / rnd32 ((N - 2 : ℕ) : ℚ))) := by
  rw [scaleFactor, u32sub2_eq (by omega) hN]
  exact if_neg (by omega)

theorem scaleFactor_bounds {N : ℕ} (h3 : 3 ≤ N) (hN : N < U32_MOD) :
    ∃ sf, scaleFactor N = some sf ∧ 0 < sf ∧ InRangeQ sf ∧
      2 ^ (-(34:ℤ)) ≤ sf ∧ ((N : ℚ) - 2) * sf ≤ 16384 := by
  have hsf := scaleFactor_eq h3 hN
  set dq : ℚ := ((N - 2 : ℕ) : ℚ) with hdq
  have hdq1 : (1:ℚ) ≤ dq := by
    rw [hdq]
    exact_mod_cast Nat.one_le_iff_ne_zero.2 (by omega)
  have hdqU : dq < 4294967296 := by
    rw [hdq]
    exact_mod_cast (by simp only [U32_MOD] at hN; omega : N - 2 < 4294967296)
  have hdq0 : (0:ℚ) < dq := lt_of_lt_of_le one_pos hdq1
  have hdqR : InRangeQ dq := by
    constructor
    · rw [two_zpow_neg64]; linarith
    · rw [two_zpow_pos64]; linarith
  obtain ⟨hrd_lo, hrd_hi⟩ := rnd32_bounds hdq0 hdqR
  rw [two_zpow_neg24] at hrd_lo hrd_hi
  set rd := rnd32 dq with hrd
  have hrd0 : (0:ℚ) < rd := by nlinarith
  set q1 : ℚ := (MAX_COUNT : ℚ) / rd with hq1
  have hMC : (MAX_COUNT : ℚ) = 16383 := by norm_num [MAX_COUNT]
  have hq1rd : q1 * rd = 16383 := by
    rw [hq1, div_mul_cancel₀ _ (ne_of_gt hrd0), hMC]
  have hq10 : (0:ℚ) < q1 := by
    rw [hq1, hMC]
    positivity
  have hrd_ge1 : (1 - 1/16777216 : ℚ) ≤ rd := by nlinarith
  have hq1_hi : q1 ≤ 16384 := by
    nlinarith [mul_nonneg (le_of_lt hq10) (sub_nonneg.2 hrd_ge1)]
  have hrd_le : rd < 8589934592 := by nlinarith
  have hq1_lo : (1/1048576 : ℚ) ≤ q1 := by
    nlinarith [mul_pos hq10 (by linarith : (0:ℚ) < 8589934592 - rd)]
  have hq1R : InRangeQ q1 := by
    constructor
    · rw [two_zpow_neg64]; linarith
    · rw [two_zpow_pos64]; linarith
  obtain ⟨hsf_lo, hsf_hi⟩ := rnd32_bounds hq10 hq1R
  rw [two_zpow_neg24] at hsf_lo hsf_hi
  refine ⟨rnd32 q1, hsf, by nlinarith, ⟨?_, ?_⟩, ?_, ?_⟩
  · rw [two_zpow_neg64]; nlinarith
  · rw [two_zpow_pos64]; nlinarith
  · rw [two_zpow_neg34]; nlinarith
  · have hdq_eq : dq = (N : ℚ) - 2 := by
      rw [hdq]
      push_cast [Nat.cast_sub (show 2 ≤ N by omega)]
      ring
    rw [← hdq_eq]
    have k1 := mul_le_mul_of_nonneg_left hrd_lo (le_of_lt hq10)
    rw [hq1rd] at k1
    have k2 := mul_le_mul_of_nonneg_left hsf_hi (le_of_lt hdq0)
    linarith [k1, k2]

theorem rnd32_half : rnd32 (1 / 2 : ℚ) = 1 / 2 := by decide

theorem rampS_stage {N i : ℕ} {sf : ℚ} (hsf0 : 0 < sf) (hsf34 : 2 ^ (-(34:ℤ)) ≤ sf)
    (hdsf : ((N : ℚ) - 2) * sf ≤ 16384) (h3 : 3 ≤ N) (hN : N < U32_MOD)
    (hi : i ≤ N - 2) :
    (i = 0 → rnd32 (i : ℚ) * sf = 0) ∧
    (1 ≤ i → InRangeQ (rnd32 (i : ℚ) * sf)) ∧
    0 ≤ rnd32 (i : ℚ) * sf ∧ rnd32 (i : ℚ) * sf ≤ 16385 ∧
    InRangeQ (rnd32 (rnd32 (i : ℚ) * sf) + 1 / 2) ∧
    rnd32 (rnd32 (i : ℚ) * sf) + 1 / 2 ≤ 16387 ∧
    0 ≤ rampS i sf ∧ rampS i sf ≤ 16388 := by
  rw [two_zpow_neg34] at hsf34
  have hNq : (N:ℚ) < 4294967296 := by
    simp only [U32_MOD] at hN
    exact_mod_cast (by omega : N < 4294967296)
  have hN1 : (1:ℚ) ≤ (N:ℚ) - 2 := by
    have h3q : (3:ℚ) ≤ (N:ℚ) := by exact_mod_cast h3
    linarith
  have hsfhi : sf ≤ 16384 := by nlinarith
  have hiq : (i:ℚ) ≤ (N:ℚ) - 2 := by
    have k1 : (i:ℚ) ≤ ((N - 2 : ℕ) : ℚ) := by exact_mod_cast hi
    have k2 : ((N - 2 : ℕ) : ℚ) = (N:ℚ) - 2 := by
      push_cast [Nat.cast_sub (show 2 ≤ N by omega)]
      ring
    linarith
  by_cases h0 : i = 0
  · subst h0
    have hz : rnd32 ((0:ℕ) : ℚ) * sf = 0 := by
      rw [Nat.cast_zero, rnd32_zero, zero_mul]
    have hzz : rnd32 (rnd32 ((0:ℕ) : ℚ) * sf) = 0 := by rw [hz, rnd32_zero]
    have hrS : rampS 0 sf = 1 / 2 := by
      rw [rampS, Nat.cast_zero, rnd32_zero, zero_mul, rnd32_zero, zero_add, rnd32_half]
    refine ⟨fun _ => hz, by omega, le_of_eq hz.symm, by rw [hz]; norm_num, ?_, ?_, ?_, ?_⟩
    · rw [hzz]
      constructor
      · rw [two_zpow_neg64]; norm_num
      · rw [two_zpow_pos64]; norm_num
    · rw [hzz]; norm_num
    · rw [hrS]; norm_num
    · rw [hrS]; norm_num
  · have h1i : 1 ≤ i := by omega
    have hiq1 : (1:ℚ) ≤ (i:ℚ) := by exact_mod_cast h1i
    have hiR : InRangeQ (i:ℚ) := by
      constructor
      · rw [two_zpow_neg64]; linarith
      · rw [two_zpow_pos64]; linarith
    obtain ⟨hfi_lo, hfi_hi⟩ := rnd32_bounds (lt_of_lt_of_le one_pos hiq1) hiR
    rw [two_zpow_neg24] at hfi_lo hfi_hi
    set fi := rnd32 (i:ℚ) with hfi
    have hfi_half : (1/2 : ℚ) ≤ fi := by nlinarith
    have hfi0 : 0 < fi := by linarith
    have hp0 : 0 < fi * sf := mul_pos hfi0 hsf0
    have hp0_hi : fi * sf ≤ 16385 := by
      have k1 : fi ≤ ((N:ℚ) - 2) * (1 + 1/16777216) := by
        have k := mul_le_mul_of_nonneg_right hiq (by norm_num : (0:ℚ) ≤ 1 + 1/16777216)
        linarith
      have k2 : fi * sf ≤ (((N:ℚ) - 2) * (1 + 1/16777216)) * sf :=
        mul_le_mul_of_nonneg_right k1 (le_of_lt hsf0)
      have k3 : (((N:ℚ) - 2) * (1 + 1/16777216)) * sf
          = (((N:ℚ) - 2) * sf) * (1 + 1/16777216) := by ring
      have k4 : (((N:ℚ) - 2) * sf) * (1 + 1/16777216) ≤ 16384 * (1 + 1/16777216) :=
        mul_le_mul_of_nonneg_right hdsf (by norm_num)
      have k5 : (16384 : ℚ) * (1 + 1/16777216) ≤ 16385 := by norm_num
      linarith
    have hp0_lo : (1/34359738368 : ℚ) ≤ fi * sf := by
      have k := mul_le_mul hfi_half hsf34 (by norm_num) (le_of_lt hfi0)
      have k2 : (1/2 : ℚ) * (1/17179869184) = 1/34359738368 := by norm_num
      linarith
    have hp0R : InRangeQ (fi * sf) := by
      constructor
      · rw [two_zpow_neg64]; linarith
      · rw [two_zpow_pos64]; linarith
    obtain ⟨hp_lo, hp_hi⟩ := rnd32_bounds hp0 hp0R
    rw [two_zpow_neg24] at hp_lo hp_hi
    set p := rnd32 (fi * sf) with hp
    have hp_nn : 0 ≤ p := rnd32_nonneg _
    have hp_le : p ≤ 16386 := by
      have k := mul_le_mul_of_nonneg_right hp0_hi
        (by norm_num : (0:ℚ) ≤ 1 + 1/16777216)
      have k2 : (16385 : ℚ) * (1 + 1/16777216) ≤ 16386 := by norm_num
      nlinarith
    have hzR : InRangeQ (p + 1/2) := by
      constructor
      · rw [two_zpow_neg64]; linarith
      · rw [two_zpow_pos64]; linarith
    have hz_hi : p + 1/2 ≤ 16387 := by linarith
    obtain ⟨hs_lo, hs_hi⟩ := rnd32_bounds (by linarith : (0:ℚ) < p + 1/2) hzR
    rw [two_zpow_neg24] at hs_lo hs_hi
    have hrSeq : rampS i sf = rnd32 (p + 1/2) := by
      rw [rampS, ← hfi, ← hp]
    refine ⟨fun hc => absurd hc (by omega), fun _ => hp0R, le_of_lt hp0, hp0_hi,
      hzR, hz_hi, ?_, ?_⟩
    · rw [hrSeq]
      exact rnd32_nonneg _
    · rw [hrSeq]
      have k := mul_le_mul_of_nonneg_right hz_hi
        (by norm_num : (0:ℚ) ≤ 1 + 1/16777216)
      have k2 : (16387 : ℚ) * (1 + 1/16777216) ≤ 16388 := by norm_num
      nlinarith

theorem rampValue_some {N i : ℕ} (h3 : 3 ≤ N) (hN : N < U32_MOD) (hi : i ≤ N - 2) :
    ∃ sf, scaleFactor N = some sf ∧ rampValue N i = some ((⌊rampS i sf⌋).toNat) ∧
      (⌊rampS i sf⌋).toNat ≤ 16388 := by
  obtain ⟨sf, hsf, h0, _hR, h34, hd⟩ := scaleFactor_bounds h3 hN
  obtain ⟨_, _, _, _, _, _, hs0, hs16⟩ := rampS_stage h0 h34 hd h3 hN hi
  have hfl : ⌊rampS i sf⌋ ≤ 16388 := by
    have k1 : ⌊rampS i sf⌋ ≤ ⌊(16388 : ℚ)⌋ := Int.floor_le_floor hs16
    have k2 : ⌊(16388 : ℚ)⌋ = 16388 := by norm_num
    omega
  have hnn : 0 ≤ ⌊rampS i sf⌋ := Int.floor_nonneg.2 hs0
  refine ⟨sf, hsf, ?_, by omega⟩
  rw [rampValue, hsf, Option.some_bind, if_pos (show (⌊rampS i sf⌋).toNat < U32_MOD by
    simp only [U32_MOD]
    omega)]

theorem sampleWord_some {N i : ℕ} (h3 : 3 ≤ N) (hN : N < U32_MOD) (hiN : i < N) :
    ∃ w, sampleWord N i = some w ∧ w < U32_MOD ∧
      (i = N - 1 → w = 0) ∧
      (i < N - 1 → ∃ a, a ≤ MAX_COUNT ∧ w = a * 2 ^ 18) := by
  rw [sampleWord, u32sub1_eq (by omega) hN]
  by_cases hlast : i = N - 1
  · rw [if_pos hlast]
    exact ⟨0, rfl, by simp [U32_MOD], fun _ => rfl, fun hc => absurd hc (by omega)⟩
  · rw [if_neg hlast]
    obtain ⟨sf, _hsf, hrv, hle⟩ := rampValue_some (i := i) h3 hN (by omega)
    rw [hrv]
    refine ⟨_, rfl, ?_, fun hc => absurd hc hlast, fun _ => ?_⟩
    · exact Nat.mod_lt _ (by simp [U32_MOD])
    · refine ⟨min ((⌊rampS i sf⌋).toNat) MAX_COUNT, min_le_right _ _, ?_⟩
      simp only [Option.map_some]
      have hb : min ((⌊rampS i sf⌋).toNat) MAX_COUNT * 2 ^ 18 < U32_MOD := by
        have : min ((⌊rampS i sf⌋).toNat) MAX_COUNT ≤ MAX_COUNT := min_le_right _ _
        simp only [MAX_COUNT, U32_MOD] at *
        omega
      exact Nat.mod_eq_of_lt hb

theorem natCast_InRange {k : ℕ} (h1 : 1 ≤ k) (h2 : k < U32_MOD) : InRangeQ (k:ℚ) := by
  have hk1 : (1:ℚ) ≤ (k:ℚ) := by exact_mod_cast h1
  have hk2 : (k:ℚ) < 4294967296 := by
    simp only [U32_MOD] at h2
    exact_mod_cast h2
  constructor
  · rw [two_zpow_neg64]; linarith
  · rw [two_zpow_pos64]; linarith

theorem amplitude_mono {N i : ℕ} (h3 : 3 ≤ N) (hN : N < U32_MOD) (hi1 : i + 1 ≤ N - 2) :
    ∃ a b, rampValue N i = some a ∧ rampValue N (i + 1) = some b ∧
      min a MAX_COUNT ≤ min b MAX_COUNT := by
  obtain ⟨sf, hsf, h0, _hR, h34, hd⟩ := scaleFactor_bounds h3 hN
  obtain ⟨hz_i, hIR_i, hp0nn_i, _, hzR_i, _, _, _⟩ :=
    rampS_stage (i := i) h0 h34 hd h3 hN (by omega)
  obtain ⟨_, hIR_i1, _, _, hzR_i1, _, _, _⟩ := rampS_stage (i := i + 1) h0 h34 hd h3 hN hi1
  obtain ⟨sf1, hsf1, hrv_i, _⟩ := rampValue_some (i := i) h3 hN (by omega)
  obtain ⟨sf2, hsf2, hrv_i1, _⟩ := rampValue_some (i := i + 1) h3 hN hi1
  have he1 : sf1 = sf := by
    rw [hsf] at hsf1
    exact (Option.some.inj hsf1).symm
  have he2 : sf2 = sf := by
    rw [hsf] at hsf2
    exact (Option.some.inj hsf2).symm
  rw [he1] at hrv_i
  rw [he2] at hrv_i1
  have step1 : rnd32 (i:ℚ) ≤ rnd32 ((i + 1 : ℕ):ℚ) := by
    apply rnd32_mono (Nat.cast_nonneg i) (by exact_mod_cast Nat.le_succ i)
    · rcases Nat.eq_zero_or_pos i with h | h
      · subst h; left; exact Nat.cast_zero
      · right; exact natCast_InRange h (by simp only [U32_MOD] at *; omega)
    · exact natCast_InRange (by omega) (by simp only [U32_MOD] at *; omega)
  have step2 : rnd32 (i:ℚ) * sf ≤ rnd32 ((i + 1 : ℕ):ℚ) * sf :=
    mul_le_mul_of_nonneg_right step1 (le_of_lt h0)
  have step3 : rnd32 (rnd32 (i:ℚ) * sf) ≤ rnd32 (rnd32 ((i + 1 : ℕ):ℚ) * sf) := by
    apply rnd32_mono hp0nn_i step2
    · rcases Nat.eq_zero_or_pos i with h | h
      · subst h; left; exact hz_i rfl
      · right; exact hIR_i h
    · exact hIR_i1 (by omega)
  have step4 : rnd32 (rnd32 (i:ℚ) * sf) + 1/2 ≤ rnd32 (rnd32 ((i + 1 : ℕ):ℚ) * sf) + 1/2 := by
    linarith
  have step5 : rampS i sf ≤ rampS (i + 1) sf := by
    rw [rampS, rampS]
    apply rnd32_mono ?_ step4 (Or.inr hzR_i) hzR_i1
    have := rnd32_nonneg (rnd32 (i:ℚ) * sf)
    linarith
  have hfl : ⌊rampS i sf⌋ ≤ ⌊rampS (i + 1) sf⌋ := Int.floor_le_floor step5
  refine ⟨_, _, hrv_i, hrv_i1, ?_⟩
  exact min_le_min (Int.toNat_le_toNat hfl) (le_refl MAX_COUNT)

theorem gen_fold {N : ℕ} (hall : ∀ i, i < N → (sampleWord N i).isSome) :
    ∀ (k : ℕ) (B : List ℕ), k ≤ N → B.length = N →
      (List.range k).foldlM (fun b i => (sampleWord N i).map (b.set i)) B =
        some (((List.range k).map fun i => (sampleWord N i).getD 0) ++ B.drop k) := by
  intro k
  induction k with
  | zero => intro B _ _; simp
  | succ k ih =>
    intro B hk hB
    rw [List.range_succ, List.foldlM_append, ih B (by omega) hB]
    obtain ⟨w, hw⟩ := Option.isSome_iff_exists.1 (hall k (by omega))
    have hmaplen : ((List.range k).map fun i => (sampleWord N i).getD 0).length = k := by
      simp
    have hset : (((List.range k).map fun i => (sampleWord N i).getD 0) ++ B.drop k).set k w
        = ((List.range (k + 1)).map fun i => (sampleWord N i).getD 0) ++ B.drop (k + 1) := by
      rw [List.set_append, if_neg (by omega), hmaplen, Nat.sub_self,
        List.drop_eq_getElem_cons (by omega : k < B.length), List.set_cons_zero,
        List.range_succ, List.map_append]
      simp [hw]
    simp only [List.foldlM_cons, List.foldlM_nil, hw, Option.map_some]
    simp [hset]
    rw [List.range_succ, List.map_append]
    simp [hw]

theorem GenerateRampWave_eq {N : ℕ} {B : List ℕ}
    (hall : ∀ i, i < N → (sampleWord N i).isSome) (hB : B.length = N) :
    GenerateRampWave B N =
      some ((List.range N).map fun i => (sampleWord N i).getD 0) := by
  rw [GenerateRampWave, gen_fold hall N B (le_refl N) hB, ← hB, List.drop_length,
    List.append_nil]

theorem sampleWord_isSome {N : ℕ} (h3 : 3 ≤ N) (hN : N < U32_MOD) :
    ∀ i, i < N → (sampleWord N i).isSome := by
  intro i hiN
  obtain ⟨w, hw, _⟩ := sampleWord_some h3 hN hiN
  rw [hw]
  rfl

theorem gen_length {N : ℕ} : ∀ (l : List ℕ) (B L : List ℕ),
    l.foldlM (fun b i => (sampleWord N i).map (b.set i)) B = some L →
    L.length = B.length := by
  intro l
  induction l with
  | nil =>
    intro B L h
    simp only [List.foldlM_nil] at h
    cases h
    rfl
  | cons i rest ih =>
    intro B L h
    rw [List.foldlM_cons] at h
    cases hsw : sampleWord N i with
    | none => rw [hsw] at h; simp at h
    | some w =>
      rw [hsw] at h
      have hh : rest.foldlM (fun b i => (sampleWord N i).map (b.set i)) (B.set i w)
          = some L := h
      have := ih (B.set i w) L hh
      rw [this, List.length_set]

theorem gen_zero (B : List ℕ) : GenerateRampWave B 0 = some B := rfl

theorem gen_one (B : List ℕ) : GenerateRampWave B 1 = some (B.set 0 0) := by
  simp [GenerateRampWave, show List.range 1 = [0] from rfl,
    show sampleWord 1 0 = some 0 from by decide]

theorem gen_two (B : List ℕ) : GenerateRampWave B 2 = none := by
  simp [GenerateRampWave, show List.range 2 = [0, 1] from rfl,
    show sampleWord 2 0 = none from by decide]

theorem gen_det {N : ℕ} (hN : N < U32_MOD) (B1 B2 : List ℕ)
    (h1 : B1.length = N) (h2 : B2.length = N) :
    GenerateRampWave B1 N = GenerateRampWave B2 N := by
  match N, h1, h2 with
  | 0, h1, h2 =>
    rw [List.length_eq_zero.1 h1, List.length_eq_zero.1 h2]
  | 1, h1, h2 =>
    obtain ⟨a, rfl⟩ := List.length_eq_one.1 h1
    obtain ⟨b, rfl⟩ := List.length_eq_one.1 h2
    rw [gen_one, gen_one]
    rfl
  | 2, h1, h2 =>
    rw [gen_two, gen_two]
  | (n + 3), h1, h2 =>
    rw [GenerateRampWave_eq (sampleWord_isSome (by omega) hN) h1,
      GenerateRampWave_eq (sampleWord_isSome (by omega) hN) h2]

/-! ## Controller lemmas -/

theorem pushWords_trace {σ : Type} (P : XLlFifo σ) (Buffer : List ℕ) :
    ∀ (l : List ℕ) (s : σ),
      (pushWords P Buffer l s).2 = l.map fun i => Event.pushWord (Buffer.getD i 0) := by
  intro l
  induction l with
  | nil => intro s; rfl
  | cons i rest ih =>
    intro s
    simp [pushWords, ih]

theorem toI32_lt_of_small {v N : ℕ} (h : v % U32_MOD < N) (hN : N ≤ 2 ^ 31) :
    toI32 v < (N:ℤ) := by
  simp only [toI32, U32_MOD] at *
  split_ifs with h2 <;> omega

theorem toI32_of_small {v : ℕ} (h : v % U32_MOD < 2 ^ 31) : toI32 v = (v % U32_MOD : ℤ) := by
  simp only [toI32, U32_MOD] at *
  rw [if_pos h]

theorem loopIter_fatal {σ : Type} {P : XLlFifo σ} {errMask NumSamples : ℕ}
    {Buffer : List ℕ} {frameLen : ℕ} {s : σ}
    (hv : toI32 (P.iTxVacancy s).1 < (NumSamples:ℤ)) :
    loopIter P errMask NumSamples Buffer frameLen s =
      (some (.insufficientCapacity NumSamples ((P.iTxVacancy s).1 % U32_MOD)),
        (P.iTxVacancy s).2, [.queryVacancy ((P.iTxVacancy s).1 % U32_MOD)]) := by
  simp only [loopIter]
  rw [if_pos hv]

theorem loopIter_no_fault {σ : Type} {P : XLlFifo σ} {errMask NumSamples : ℕ}
    {Buffer : List ℕ} {frameLen : ℕ} {s : σ}
    (hv : ¬ toI32 (P.iTxVacancy s).1 < (NumSamples:ℤ))
    (hst : (P.status (P.txSetLen frameLen
        (pushWords P Buffer (List.range NumSamples) (P.iTxVacancy s).2).1)).1 % U32_MOD
        &&& errMask = 0) :
    loopIter P errMask NumSamples Buffer frameLen s =
      (none,
        (P.status (P.txSetLen frameLen
          (pushWords P Buffer (List.range NumSamples) (P.iTxVacancy s).2).1)).2,
        .queryVacancy ((P.iTxVacancy s).1 % U32_MOD) :: frameEvents Buffer NumSamples
          ++ [.commitFrameLength frameLen,
            .queryStatus ((P.status (P.txSetLen frameLen
              (pushWords P Buffer (List.range NumSamples) (P.iTxVacancy s).2).1)).1
              % U32_MOD)]) := by
  simp only [loopIter]
  rw [if_neg hv, if_neg (by simpa using hst)]
  rw [pushWords_trace]
  rfl

theorem loopIter_fault {σ : Type} {P : XLlFifo σ} {errMask NumSamples : ℕ}
    {Buffer : List ℕ} {frameLen : ℕ} {s : σ}
    (hv : ¬ toI32 (P.iTxVacancy s).1 < (NumSamples:ℤ))
    (hst : (P.status (P.txSetLen frameLen
        (pushWords P Buffer (List.range NumSamples) (P.iTxVacancy s).2).1)).1 % U32_MOD
        &&& errMask ≠ 0) :
    loopIter P errMask NumSamples Buffer frameLen s =
      (some (.transmissionFault
          ((P.status (P.txSetLen frameLen
            (pushWords P Buffer (List.range NumSamples) (P.iTxVacancy s).2).1)).1
            % U32_MOD)),
        P.intClear errMask (P.status (P.txSetLen frameLen
          (pushWords P Buffer (List.range NumSamples) (P.iTxVacancy s).2).1)).2,
        .queryVacancy ((P.iTxVacancy s).1 % U32_MOD) :: frameEvents Buffer NumSamples
          ++ [.commitFrameLength frameLen,
            .queryStatus ((P.status (P.txSetLen frameLen
              (pushWords P Buffer (List.range NumSamples) (P.iTxVacancy s).2).1)).1
              % U32_MOD),
            .clearFaults errMask]) := by
  simp only [loopIter]
  rw [if_neg hv, if_pos (by simpa using hst)]
  rw [pushWords_trace]
  rfl

theorem runLoop_zero {σ : Type} (P : XLlFifo σ) (errMask NumSamples : ℕ)
    (Buffer : List ℕ) (frameLen : ℕ) (s : σ) :
    runLoop P errMask NumSamples Buffer frameLen 0 s = (none, s, []) := rfl

theorem runLoop_succ_fail {σ : Type} {P : XLlFifo σ} {errMask NumSamples : ℕ}
    {Buffer : List ℕ} {frameLen : ℕ} {s : σ} {fuel : ℕ} {f : Failure}
    (h : (loopIter P errMask NumSamples Buffer frameLen s).1 = some f) :
    runLoop P errMask NumSamples Buffer frameLen (fuel + 1) s =
      loopIter P errMask NumSamples Buffer frameLen s := by
  simp only [runLoop, h]

theorem runLoop_succ_ok {σ : Type} {P : XLlFifo σ} {errMask NumSamples : ℕ}
    {Buffer : List ℕ} {frameLen : ℕ} {s : σ} {fuel : ℕ}
    (h : (loopIter P errMask NumSamples Buffer frameLen s).1 = none) :
    runLoop P errMask NumSamples Buffer frameLen (fuel + 1) s =
      ((runLoop P errMask NumSamples Buffer frameLen fuel
          (loopIter P errMask NumSamples Buffer frameLen s).2.1).1,
        (runLoop P errMask NumSamples Buffer frameLen fuel
          (loopIter P errMask NumSamples Buffer frameLen s).2.1).2.1,
        (loopIter P errMask NumSamples Buffer frameLen s).2.2 ++
          (runLoop P errMask NumSamples Buffer frameLen fuel
            (loopIter P errMask NumSamples Buffer frameLen s).2.1).2.2) := by
  simp only [runLoop, h]

theorem loopIter_fail_shape {σ : Type} {P : XLlFifo σ} {errMask NumSamples : ℕ}
    {Buffer : List ℕ} {frameLen : ℕ} {s : σ} {f : Failure}
    (h : (loopIter P errMask NumSamples Buffer frameLen s).1 = some f) :
    (∃ a, f = .insufficientCapacity NumSamples a) ∨ ∃ st, f = .transmissionFault st := by
  by_cases hv : toI32 (P.iTxVacancy s).1 < (NumSamples:ℤ)
  · rw [loopIter_fatal hv] at h
    exact Or.inl ⟨_, (Option.some.inj h).symm⟩
  · by_cases hst : (P.status (P.txSetLen frameLen
        (pushWords P Buffer (List.range NumSamples) (P.iTxVacancy s).2).1)).1 % U32_MOD
        &&& errMask = 0
    · rw [loopIter_no_fault hv hst] at h
      simp at h
    · rw [loopIter_fault hv hst] at h
      exact Or.inr ⟨_, (Option.some.inj h).symm⟩

theorem runLoop_fail_shape {σ : Type} (P : XLlFifo σ) (errMask NumSamples : ℕ)
    (Buffer : List ℕ) (frameLen : ℕ) :
    ∀ (fuel : ℕ) (s : σ) (f : Failure),
      (runLoop P errMask NumSamples Buffer frameLen fuel s).1 = some f →
      (∃ a, f = .insufficientCapacity NumSamples a) ∨ ∃ st, f = .transmissionFault st := by
  intro fuel
  induction fuel with
  | zero => intro s f h; simp [runLoop_zero] at h
  | succ fuel ih =>
    intro s f h
    cases hit : (loopIter P errMask NumSamples Buffer frameLen s).1 with
    | none =>
      rw [runLoop_succ_ok hit] at h
      exact ih _ f h
    | some g =>
      rw [runLoop_succ_fail hit] at h
      exact loopIter_fail_shape h

theorem filter_frameEvents (Buffer : List ℕ) (n : ℕ) :
    (frameEvents Buffer n).filter isPushE = frameEvents Buffer n := by
  simp only [frameEvents, List.filter_map]
  congr 1
  have hc : (isPushE ∘ fun i => Event.pushWord (Buffer.getD i 0)) = fun _ => true := by
    funext i
    rfl
  rw [hc, List.filter_true]

theorem runLoop_pushes {σ : Type} (P : XLlFifo σ) (errMask NumSamples : ℕ)
    (Buffer : List ℕ) (frameLen : ℕ) :
    ∀ (fuel : ℕ) (s : σ), ∃ k,
      ((runLoop P errMask NumSamples Buffer frameLen fuel s).2.2).filter isPushE
        = (List.replicate k (frameEvents Buffer NumSamples)).flatten := by
  intro fuel
  induction fuel with
  | zero =>
    intro s
    exact ⟨0, by simp [runLoop_zero]⟩
  | succ fuel ih =>
    intro s
    by_cases hv : toI32 (P.iTxVacancy s).1 < (NumSamples:ℤ)
    · refine ⟨0, ?_⟩
      rw [runLoop_succ_fail (by rw [loopIter_fatal hv])]
      rw [loopIter_fatal hv]
      simp [isPushE]
    · by_cases hst : (P.status (P.txSetLen frameLen
          (pushWords P Buffer (List.range NumSamples) (P.iTxVacancy s).2).1)).1 % U32_MOD
          &&& errMask = 0
      · obtain ⟨k, hk⟩ := ih (loopIter P errMask NumSamples Buffer frameLen s).2.1
        refine ⟨k + 1, ?_⟩
        rw [runLoop_succ_ok (by rw [loopIter_no_fault hv hst])]
        rw [List.filter_append, hk, List.replicate_succ, List.flatten_cons]
        congr 1
        rw [loopIter_no_fault hv hst]
        simp [isPushE, List.filter_append, filter_frameEvents]
      · refine ⟨1, ?_⟩
        rw [runLoop_succ_fail (by rw [loopIter_fault hv hst]), loopIter_fault hv hst]
        simp only [List.replicate_succ, List.replicate_zero, List.flatten_cons,
          List.flatten_nil, List.append_nil]
        simp [isPushE, List.filter_append, filter_frameEvents]

/-! ## `main`-instance helpers -/

theorem NUM_SAMPLES_lt : NUM_SAMPLES < U32_MOD := by norm_num [NUM_SAMPLES, U32_MOD]

theorem NUM_SAMPLES_ge3 : 3 ≤ NUM_SAMPLES := by norm_num [NUM_SAMPLES]

theorem gen_256 : GenerateRampWave TxBuffer0 NUM_SAMPLES = some mainTxBuffer := by
  have hlen : TxBuffer0.length = NUM_SAMPLES := by
    simp [TxBuffer0]
  rw [mainTxBuffer, GenerateRampWave_eq (sampleWord_isSome NUM_SAMPLES_ge3 NUM_SAMPLES_lt) hlen]
  rfl

theorem mainTxBuffer_eq : mainTxBuffer = [0, 17039360, 33816576, 50855936, 67633152, 84672512, 101449728, 118489088, 135266304, 152305664, 169082880, 186122240, 202899456, 219938816, 236716032, 253755392, 270532608, 287571968, 304349184, 321388544, 338165760, 355205120, 371982336, 389021696, 405798912, 422838272, 439615488, 456654848, 473432064, 490471424, 507248640, 524288000, 541065216, 558104576, 574881792, 591921152, 608698368, 625737728, 642514944, 659554304, 676331520, 693370880, 710148096, 727187456, 743964672, 761004032, 777781248, 794820608, 811597824, 828637184, 845414400, 862453760, 879230976, 896270336, 913047552, 930086912, 946864128, 963903488, 980680704, 997720064, 1014497280, 1031536640, 1048313856, 1065353216, 1082130432, 1099169792, 1115947008, 1132986368, 1149763584, 1166802944, 1183580160, 1200619520, 1217396736, 1234436096, 1251213312, 1268252672, 1285029888, 1302069248, 1318846464, 1335885824, 1352663040, 1369702400, 1386479616, 1403518976, 1420296192, 1437335552, 1454112768, 1471152128, 1487929344, 1504968704, 1521745920, 1538785280, 1555562496, 1572601856, 1589379072, 1606418432, 1623195648, 1640235008, 1657012224, 1674051584, 1690828800, 1707868160, 1724645376, 1741684736, 1758461952, 1775501312, 1792278528, 1809317888, 1826095104, 1843134464, 1859911680, 1876951040, 1893728256, 1910767616, 1927544832, 1944584192, 1961361408, 1978400768, 1995177984, 2012217344, 2028994560, 2046033920, 2062811136, 2079850496, 2096627712, 2113667072, 2130444288, 2147483648, 2164260864, 2181300224, 2198077440, 2215116800, 2231894016, 2248933376, 2265710592, 2282749952, 2299527168, 2316566528, 2333343744, 2350383104, 2367160320, 2384199680, 2400976896, 2418016256, 2434793472, 2451832832, 2468610048, 2485649408, 2502426624, 2519465984, 2536243200, 2553282560, 2570059776, 2587099136, 2603876352, 2620915712, 2637692928, 2654732288, 2671509504, 2688548864, 2705326080, 2722365440, 2739142656, 2756182016, 2772959232, 2789998592, 2806775808, 2823815168, 2840592384, 2857631744, 2874408960, 2891448320, 2908225536, 2925264896, 2942042112, 2959081472, 2975858688, 2992898048, 3009675264, 3026714624, 3043491840, 3060531200, 3077308416, 3094347776, 3111124992, 3128164352, 3144941568, 3161980928, 3178758144, 3195797504, 3212574720, 3229614080, 3246391296, 3263430656, 3280207872, 3297247232, 3314024448, 3331063808, 3347841024, 3364880384, 3381657600, 3398696960, 3415474176, 3432513536, 3449290752, 3466330112, 3483107328, 3500146688, 3516923904, 3533963264, 3550740480, 3567779840, 3584557056, 3601596416, 3618373632, 3635412992, 3652190208, 3669229568, 3686006784, 3703046144, 3719823360, 3736862720, 3753639936, 3770679296, 3787456512, 3804495872, 3821273088, 3838312448, 3855089664, 3872129024, 3888906240, 3905945600, 3922722816, 3939762176, 3956539392, 3973578752, 3990355968, 4007395328, 4024172544, 4041211904, 4057989120, 4075028480, 4091805696, 4108845056, 4125622272, 4142661632, 4159438848, 4176478208, 4193255424, 4210294784, 4227072000, 4244111360, 4260888576, 4277927936, 4294705152, 0] := by decide

/-! ## Claim theorems -/

/-- C1: in any iteration of the streaming loop, a vacancy reading strictly
below `NUM_SAMPLES` terminates the iteration with `InsufficientCapacity`
(reporting needed and available counts) after the vacancy query alone — the
trace is exactly `[queryVacancy v]`, so no `pushWord` occurs, and the run
returns from that iteration; a vacancy reading of exactly `NUM_SAMPLES` is
accepted: the failure (if any) is not `InsufficientCapacity` and the full
frame of pushes follows the query. -/
theorem claim_C1 {σ : Type} (P : XLlFifo σ) (errMask : ℕ) (s : σ) :
    ((P.iTxVacancy s).1 % U32_MOD < NUM_SAMPLES →
      (loopIter P errMask NUM_SAMPLES mainTxBuffer TxFrameLength s).1
          = some (.insufficientCapacity NUM_SAMPLES ((P.iTxVacancy s).1 % U32_MOD)) ∧
        (loopIter P errMask NUM_SAMPLES mainTxBuffer TxFrameLength s).2.2
          = [.queryVacancy ((P.iTxVacancy s).1 % U32_MOD)] ∧
        ∀ fuel : ℕ, runLoop P errMask NUM_SAMPLES mainTxBuffer TxFrameLength (fuel + 1) s
          = loopIter P errMask NUM_SAMPLES mainTxBuffer TxFrameLength s) ∧
    ((P.iTxVacancy s).1 % U32_MOD = NUM_SAMPLES →
      ((loopIter P errMask NUM_SAMPLES mainTxBuffer TxFrameLength s).1 = none ∨
        ∃ st, (loopIter P errMask NUM_SAMPLES mainTxBuffer TxFrameLength s).1
          = some (.transmissionFault st)) ∧
      ∃ rest, (loopIter P errMask NUM_SAMPLES mainTxBuffer TxFrameLength s).2.2
          = .queryVacancy ((P.iTxVacancy s).1 % U32_MOD)
              :: frameEvents mainTxBuffer NUM_SAMPLES ++ rest) := by
  constructor
  · intro hv
    have hlt : toI32 (P.iTxVacancy s).1 < (NUM_SAMPLES:ℤ) :=
      toI32_lt_of_small hv (by norm_num [NUM_SAMPLES])
    refine ⟨?_, ?_, ?_⟩
    · rw [loopIter_fatal hlt]
    · rw [loopIter_fatal hlt]
    · intro fuel
      exact runLoop_succ_fail (by rw [loopIter_fatal hlt])
  · intro hv
    have hnlt : ¬ toI32 (P.iTxVacancy s).1 < (NUM_SAMPLES:ℤ) := by
      rw [toI32_of_small (by rw [hv]; norm_num [NUM_SAMPLES])]
      simp only [NUM_SAMPLES, U32_MOD] at hv ⊢
      omega
    by_cases hst : (P.status (P.txSetLen TxFrameLength
        (pushWords P mainTxBuffer (List.range NUM_SAMPLES) (P.iTxVacancy s).2).1)).1 % U32_MOD
        &&& errMask = 0
    · rw [loopIter_no_fault hnlt hst]
      exact ⟨Or.inl rfl, ⟨_, rfl⟩⟩
    · rw [loopIter_fault hnlt hst]
      exact ⟨Or.inr ⟨_, rfl⟩, ⟨_, rfl⟩⟩

/-- C2: if the vacancy check passes and the post-commit status has a fault
bit set, the run terminates in that same iteration with `TransmissionFault`
carrying the raw status bits; the iteration's final event is
`clearFaults errMask` (exactly the fault mask), and `runLoop` with any
remaining fuel returns the iteration's result unchanged — no further
iteration is attempted. -/
theorem claim_C2 {σ : Type} (P : XLlFifo σ) (errMask : ℕ) (s : σ) (fuel : ℕ)
    (hv : ¬ toI32 (P.iTxVacancy s).1 < (NUM_SAMPLES:ℤ))
    (hst : (P.status (P.txSetLen TxFrameLength
        (pushWords P mainTxBuffer (List.range NUM_SAMPLES) (P.iTxVacancy s).2).1)).1 % U32_MOD
        &&& errMask ≠ 0) :
    runLoop P errMask NUM_SAMPLES mainTxBuffer TxFrameLength (fuel + 1) s
        = loopIter P errMask NUM_SAMPLES mainTxBuffer TxFrameLength s ∧
    (loopIter P errMask NUM_SAMPLES mainTxBuffer TxFrameLength s).1
        = some (.transmissionFault ((P.status (P.txSetLen TxFrameLength
            (pushWords P mainTxBuffer (List.range NUM_SAMPLES) (P.iTxVacancy s).2).1)).1
            % U32_MOD)) ∧
    (loopIter P errMask NUM_SAMPLES mainTxBuffer TxFrameLength s).2.2
        = .queryVacancy ((P.iTxVacancy s).1 % U32_MOD)
            :: frameEvents mainTxBuffer NUM_SAMPLES
            ++ [.commitFrameLength TxFrameLength,
              .queryStatus ((P.status (P.txSetLen TxFrameLength
                (pushWords P mainTxBuffer (List.range NUM_SAMPLES) (P.iTxVacancy s).2).1)).1
                % U32_MOD),
              .clearFaults errMask] := by
  refine ⟨?_, ?_, ?_⟩
  · exact runLoop_succ_fail (by rw [loopIter_fault hv hst])
  · rw [loopIter_fault hv hst]
  · rw [loopIter_fault hv hst]

/-- C4: in any iteration where the vacancy check passes, the trace is the
vacancy query, then exactly `NUM_SAMPLES` `pushWord` calls supplying
`Buffer[0], …, Buffer[N-1]` in increasing index order, then exactly one
`commitFrameLength` whose argument is `NUM_SAMPLES * 4` bytes, then the
status query; only a possible `clearFaults` follows. -/
theorem claim_C4 {σ : Type} (P : XLlFifo σ) (errMask : ℕ) (s : σ)
    (hv : ¬ toI32 (P.iTxVacancy s).1 < (NUM_SAMPLES:ℤ)) :
    TxFrameLength = NUM_SAMPLES * 4 ∧
    frameEvents mainTxBuffer NUM_SAMPLES
      = (List.range NUM_SAMPLES).map (fun i => Event.pushWord (mainTxBuffer.getD i 0)) ∧
    (frameEvents mainTxBuffer NUM_SAMPLES).length = NUM_SAMPLES ∧
    ∃ rest, (loopIter P errMask NUM_SAMPLES mainTxBuffer TxFrameLength s).2.2
        = .queryVacancy ((P.iTxVacancy s).1 % U32_MOD)
            :: frameEvents mainTxBuffer NUM_SAMPLES
            ++ [.commitFrameLength TxFrameLength,
              .queryStatus ((P.status (P.txSetLen TxFrameLength
                (pushWords P mainTxBuffer (List.range NUM_SAMPLES) (P.iTxVacancy s).2).1)).1
                % U32_MOD)]
            ++ rest
        ∧ (rest = [] ∨ rest = [.clearFaults errMask]) := by
  refine ⟨rfl, rfl, by simp [frameEvents], ?_⟩
  by_cases hst : (P.status (P.txSetLen TxFrameLength
      (pushWords P mainTxBuffer (List.range NUM_SAMPLES) (P.iTxVacancy s).2).1)).1 % U32_MOD
      &&& errMask = 0
  · refine ⟨[], ?_, Or.inl rfl⟩
    rw [loopIter_no_fault hv hst]
    simp
  · refine ⟨[.clearFaults errMask], ?_, Or.inr rfl⟩
    rw [loopIter_fault hv hst]
    simp

/-- C5: the run never returns `XST_SUCCESS`: after any number of loop
iterations it has either not returned at all, or it has returned through
one of the two fatal paths (`InsufficientCapacity` with
`needed = NUM_SAMPLES`, or `TransmissionFault`). -/
theorem claim_C5 {σ : Type} (P : XLlFifo σ) (errMask fuel : ℕ) (s0 : σ) :
    returnCode (mainRun P errMask fuel s0).1 ≠ some XST_SUCCESS ∧
    ((mainRun P errMask fuel s0).1 = none ∨
      (∃ a, (mainRun P errMask fuel s0).1 = some (.insufficientCapacity NUM_SAMPLES a)) ∨
      ∃ st, (mainRun P errMask fuel s0).1 = some (.transmissionFault st)) := by
  constructor
  · cases h : (mainRun P errMask fuel s0).1 with
    | none => simp [returnCode]
    | some f => simp [returnCode, XST_FAILURE, XST_SUCCESS]
  · cases h : (mainRun P errMask fuel s0).1 with
    | none => exact Or.inl rfl
    | some f =>
      simp only [mainRun] at h
      rcases runLoop_fail_shape P errMask NUM_SAMPLES mainTxBuffer TxFrameLength fuel _ f h
        with ⟨a, ha⟩ | ⟨st, hstf⟩
      · exact Or.inr (Or.inl ⟨a, by rw [ha]⟩)
      · exact Or.inr (Or.inr ⟨st, by rw [hstf]⟩)

/-- C7: for `3 ≤ N < 2^32` and consecutive non-final indices `i`, `i+1`
(with `i + 1 ≤ N - 2`), the generator's clamped amplitudes are defined and
non-decreasing: `min rampValue(i) MAX_COUNT ≤ min rampValue(i+1) MAX_COUNT`. -/
theorem claim_C7 {N i : ℕ} (h3 : 3 ≤ N) (hN : N < U32_MOD) (hi1 : i + 1 ≤ N - 2) :
    ∃ a b, rampValue N i = some a ∧ rampValue N (i + 1) = some b ∧
      min a MAX_COUNT ≤ min b MAX_COUNT :=
  amplitude_mono h3 hN hi1

/-- C8: the generator is deterministic (the output depends only on `N`,
not on the prior buffer contents) and idempotent (re-running it on its own
output reproduces that output exactly). -/
theorem claim_C8 {N : ℕ} (hN : N < U32_MOD) :
    (∀ B1 B2 : List ℕ, B1.length = N → B2.length = N →
      GenerateRampWave B1 N = GenerateRampWave B2 N) ∧
    (∀ B L : List ℕ, B.length = N → GenerateRampWave B N = some L →
      GenerateRampWave L N = some L) := by
  constructor
  · exact fun B1 B2 h1 h2 => gen_det hN B1 B2 h1 h2
  · intro B L hB hgen
    have hL : L.length = N := by
      rw [GenerateRampWave] at hgen
      exact (gen_length _ B L hgen).trans hB
    rw [gen_det hN L B hL hB, hgen]

/-- C9: the buffer streamed by `main` is exactly the generator's output,
and the loop never modifies it: the `pushWord` events of any run are a
whole number of copies of the one fixed frame built from `mainTxBuffer`. -/
theorem claim_C9 {σ : Type} (P : XLlFifo σ) (errMask fuel : ℕ) (s0 : σ) :
    GenerateRampWave TxBuffer0 NUM_SAMPLES = some mainTxBuffer ∧
    ∃ k, ((mainRun P errMask fuel s0).2.2).filter isPushE
        = (List.replicate k (frameEvents mainTxBuffer NUM_SAMPLES)).flatten := by
  refine ⟨gen_256, ?_⟩
  simp only [mainRun]
  exact runLoop_pushes P errMask NUM_SAMPLES mainTxBuffer TxFrameLength fuel _

/-- C10: when a fault terminates the run, the fault is detected only after
the full frame was pushed and committed: the final iteration's trace is
the vacancy query, all `NUM_SAMPLES` pushes, the length commit — and only
then the status query and the single cleanup `clearFaults`; no other
peripheral operation (in particular no rollback of the committed frame)
occurs. -/
theorem claim_C10 {σ : Type} (P : XLlFifo σ) (errMask : ℕ) (s : σ)
    (hv : ¬ toI32 (P.iTxVacancy s).1 < (NUM_SAMPLES:ℤ))
    (hst : (P.status (P.txSetLen TxFrameLength
        (pushWords P mainTxBuffer (List.range NUM_SAMPLES) (P.iTxVacancy s).2).1)).1 % U32_MOD
        &&& errMask ≠ 0) :
    (loopIter P errMask NUM_SAMPLES mainTxBuffer TxFrameLength s).1
        = some (.transmissionFault ((P.status (P.txSetLen TxFrameLength
            (pushWords P mainTxBuffer (List.range NUM_SAMPLES) (P.iTxVacancy s).2).1)).1
            % U32_MOD)) ∧
    (loopIter P errMask NUM_SAMPLES mainTxBuffer TxFrameLength s).2.2
        = (.queryVacancy ((P.iTxVacancy s).1 % U32_MOD)
            :: frameEvents mainTxBuffer NUM_SAMPLES ++ [.commitFrameLength TxFrameLength])
          ++ [.queryStatus ((P.status (P.txSetLen TxFrameLength
              (pushWords P mainTxBuffer (List.range NUM_SAMPLES) (P.iTxVacancy s).2).1)).1
              % U32_MOD),
            .clearFaults errMask] ∧
    (frameEvents mainTxBuffer NUM_SAMPLES).length = NUM_SAMPLES := by
  refine ⟨?_, ?_, by simp [frameEvents]⟩
  · rw [loopIter_fault hv hst]
  · rw [loopIter_fault hv hst]
    simp

theorem map_range_getD (N i : ℕ) (f : ℕ → ℕ) (h : i < N) :
    ((List.range N).map f).getD i 0 = f i := by
  rw [List.getD_eq_getElem _ _ (by simpa using h), List.getElem_map, List.getElem_range]

/-- C3 counterexample: at `N = 16`, `i = 7` the code's element is
`8191 << 18` while the claim's exact-arithmetic formula demands
`8192 << 18` (the exact value `7 · 16383/14 + 1/2 = 8192` is an integer,
but the single-precision evaluation loses the tie): the claim's
per-element formula is false for the code. -/
theorem claim_C3_counterexample :
    ((GenerateRampWave (List.replicate 16 0) 16).getD []).getD 7 0 = 8191 * 2 ^ 18 ∧
    specWord 16 7 = 8192 * 2 ^ 18 ∧
    ¬ ((((GenerateRampWave (List.replicate 16 0) 16).getD []).getD 7 0 : ℤ)
        = specWord 16 7) := by
  refine ⟨by decide, by decide, by decide⟩

/-- C3 (amended): for every `3 ≤ N < 2^32` the generator fills all `N`
elements: the result has length `N`, its last element is `0`, and every
other element is `a << 18` for a 14-bit amplitude `a ≤ MAX_COUNT` (hence
bits 17:0 are zero and `element >> 18 ≤ 16383`); the amplitude is the
single-precision evaluation of the scaled index, which for `N = 256`
agrees with the exact formula `clamp(floor(i·16383/254 + 1/2), 0, 16383)`
at every non-final element — in particular element `0` is `0x00000000`,
element `127` is `0x80000000` and element `255` is `0x00000000`.  (For
other `N` the float amplitude can differ from the exact formula by one
unit, and for `N = 2` the unguarded division by zero makes the generator
undefined.) -/
theorem claim_C3_amended :
    (∀ N, 3 ≤ N → N < U32_MOD → ∀ Buffer : List ℕ, Buffer.length = N →
      ∃ L, GenerateRampWave Buffer N = some L ∧ L.length = N ∧
        L.getD (N - 1) 0 = 0 ∧
        ∀ i, i < N - 1 → ∃ a, a ≤ MAX_COUNT ∧ L.getD i 0 = a * 2 ^ 18) ∧
    (∀ i, i < NUM_SAMPLES - 1 → ((mainTxBuffer.getD i 0 : ℤ) = specWord NUM_SAMPLES i)) ∧
    mainTxBuffer.getD 0 0 = 0 ∧
    mainTxBuffer.getD 127 0 = 0x80000000 ∧
    mainTxBuffer.getD 255 0 = 0 := by
  refine ⟨?_, ?_, ?_, ?_, ?_⟩
  · intro N h3 hN Buffer hB
    refine ⟨_, GenerateRampWave_eq (sampleWord_isSome h3 hN) hB, by simp, ?_, ?_⟩
    · obtain ⟨w, hw, _, hlast, _⟩ := sampleWord_some h3 hN (show N - 1 < N by omega)
      rw [map_range_getD N (N - 1) _ (by omega), hw]
      simp [hlast rfl]
    · intro i hi
      obtain ⟨w, hw, _, _, hnl⟩ := sampleWord_some h3 hN (show i < N by omega)
      obtain ⟨a, ha, hwa⟩ := hnl hi
      refine ⟨a, ha, ?_⟩
      rw [map_range_getD N i _ (by omega), hw]
      simpa using hwa
  · rw [mainTxBuffer_eq]
    decide
  · rw [mainTxBuffer_eq]
    decide
  · rw [mainTxBuffer_eq]
    decide
  · rw [mainTxBuffer_eq]
    decide

/-- C3 witness: the amended theorem instantiated at `N = 4`. -/
theorem claim_C3_amended_witness :
    ∃ L, GenerateRampWave [9, 9, 9, 9] 4 = some L ∧ L.length = 4 ∧
      L.getD 3 0 = 0 ∧
      ∀ i, i < 3 → ∃ a, a ≤ MAX_COUNT ∧ L.getD i 0 = a * 2 ^ 18 :=
  claim_C3_amended.1 4 (by norm_num) (by norm_num [U32_MOD]) [9, 9, 9, 9] rfl

/-- C6 counterexample: invoked with `N = 1 < 2`, `GenerateRampWave` does
not fail before writing — it overwrites `Buffer[0]` with `0`. -/
theorem claim_C6_counterexample :
    GenerateRampWave [5] 1 ≠ none ∧
    GenerateRampWave [5] 1 ≠ some [5] ∧
    GenerateRampWave [5] 1 = some [0] := by
  refine ⟨by decide, by decide, by decide⟩

/-- C6 (amended): the code performs no length validation and has no
`InvalidLength` signal.  For `N = 0` the loop writes nothing; for `N = 1`
it writes the single (final) element as `0`; for `N = 2` the unguarded
`16383.0f / 0` produces `+inf` and the `u32` cast of the resulting NaN at
index `0` is undefined behaviour (modelled as `none`), not a pre-write
rejection.  Callers must validate `N` themselves (the only call site
passes `N = 256`). -/
theorem claim_C6_amended :
    (∀ Buffer : List ℕ, GenerateRampWave Buffer 0 = some Buffer) ∧
    (∀ Buffer : List ℕ, GenerateRampWave Buffer 1 = some (Buffer.set 0 0)) ∧
    (∀ Buffer : List ℕ, GenerateRampWave Buffer 2 = none) :=
  ⟨gen_zero, gen_one, gen_two⟩

/-- C7 witness: the monotonicity theorem instantiated at `N = 4`, `i = 0`. -/
theorem claim_C7_witness :
    ∃ a b, rampValue 4 0 = some a ∧ rampValue 4 1 = some b ∧
      min a MAX_COUNT ≤ min b MAX_COUNT :=
  claim_C7 (by norm_num) (by norm_num [U32_MOD]) (by norm_num)

/-- C8 witness: determinism and idempotence exhibited at `N = 4`. -/
theorem claim_C8_witness :
    GenerateRampWave [1, 2, 3, 4] 4 = GenerateRampWave [7, 7, 7, 7] 4 ∧
    GenerateRampWave [0, 2147483648, 4294705152, 0] 4
      = some [0, 2147483648, 4294705152, 0] :=
  ⟨(claim_C8 (by norm_num [U32_MOD])).1 [1, 2, 3, 4] [7, 7, 7, 7] rfl rfl,
   (claim_C8 (by norm_num [U32_MOD])).2 [1, 2, 3, 4] [0, 2147483648, 4294705152, 0] rfl
     (by decide)⟩

/-- C1 witness: a mock with vacancy `10` is rejected without pushes and
the run returns; a mock with vacancy exactly `256` proceeds to the full
frame of pushes. -/
theorem claim_C1_witness :
    ((loopIter (mockFifo 10 0) 0 NUM_SAMPLES mainTxBuffer TxFrameLength ()).1
        = some (.insufficientCapacity NUM_SAMPLES 10) ∧
      (loopIter (mockFifo 10 0) 0 NUM_SAMPLES mainTxBuffer TxFrameLength ()).2.2
        = [.queryVacancy 10] ∧
      ∀ fuel : ℕ, runLoop (mockFifo 10 0) 0 NUM_SAMPLES mainTxBuffer TxFrameLength (fuel + 1) ()
        = loopIter (mockFifo 10 0) 0 NUM_SAMPLES mainTxBuffer TxFrameLength ()) ∧
    (((loopIter (mockFifo 256 0) 0 NUM_SAMPLES mainTxBuffer TxFrameLength ()).1 = none ∨
        ∃ st, (loopIter (mockFifo 256 0) 0 NUM_SAMPLES mainTxBuffer TxFrameLength ()).1
          = some (.transmissionFault st)) ∧
      ∃ rest, (loopIter (mockFifo 256 0) 0 NUM_SAMPLES mainTxBuffer TxFrameLength ()).2.2
          = .queryVacancy 256 :: frameEvents mainTxBuffer NUM_SAMPLES ++ rest) :=
  ⟨(claim_C1 (mockFifo 10 0) 0 ()).1 (by decide),
   (claim_C1 (mockFifo 256 0) 0 ()).2 (by decide)⟩

/-- C2 witness: a mock whose status reads `0x80000000` after commit, with
fault mask `0x80000000`, terminates with `TransmissionFault` after one
iteration, ending with `clearFaults` of exactly the mask. -/
theorem claim_C2_witness :
    runLoop (mockFifo 300 2147483648) 2147483648 NUM_SAMPLES mainTxBuffer TxFrameLength 6 ()
        = loopIter (mockFifo 300 2147483648) 2147483648 NUM_SAMPLES mainTxBuffer
            TxFrameLength () ∧
    (loopIter (mockFifo 300 2147483648) 2147483648 NUM_SAMPLES mainTxBuffer
        TxFrameLength ()).1 = some (.transmissionFault 2147483648) ∧
    (loopIter (mockFifo 300 2147483648) 2147483648 NUM_SAMPLES mainTxBuffer
        TxFrameLength ()).2.2
      = .queryVacancy 300 :: frameEvents mainTxBuffer NUM_SAMPLES
          ++ [.commitFrameLength TxFrameLength, .queryStatus 2147483648,
            .clearFaults 2147483648] :=
  claim_C2 (mockFifo 300 2147483648) 2147483648 () 5 (by decide) (by decide)

/-- C4 witness: a fault-free mock with vacancy `300` performs the full
ordered frame, one commit of `NUM_SAMPLES * 4` bytes, then the status
query. -/
theorem claim_C4_witness :
    TxFrameLength = NUM_SAMPLES * 4 ∧
    frameEvents mainTxBuffer NUM_SAMPLES
      = (List.range NUM_SAMPLES).map (fun i => Event.pushWord (mainTxBuffer.getD i 0)) ∧
    (frameEvents mainTxBuffer NUM_SAMPLES).length = NUM_SAMPLES ∧
    ∃ rest, (loopIter (mockFifo 300 0) 0 NUM_SAMPLES mainTxBuffer TxFrameLength ()).2.2
        = .queryVacancy 300 :: frameEvents mainTxBuffer NUM_SAMPLES
            ++ [.commitFrameLength TxFrameLength, .queryStatus 0]
            ++ rest
        ∧ (rest = [] ∨ rest = [.clearFaults 0]) :=
  claim_C4 (mockFifo 300 0) 0 () (by decide)

/-- C10 witness: at the faulting mock, the final trace shows the complete
push-and-commit prefix before the status query and single fault clear. -/
theorem claim_C10_witness :
    (loopIter (mockFifo 300 2147483648) 2147483648 NUM_SAMPLES mainTxBuffer
        TxFrameLength ()).1 = some (.transmissionFault 2147483648) ∧
    (loopIter (mockFifo 300 2147483648) 2147483648 NUM_SAMPLES mainTxBuffer
        TxFrameLength ()).2.2
      = (.queryVacancy 300 :: frameEvents mainTxBuffer NUM_SAMPLES
          ++ [.commitFrameLength TxFrameLength])
        ++ [.queryStatus 2147483648, .clearFaults 2147483648] ∧
    (frameEvents mainTxBuffer NUM_SAMPLES).length = NUM_SAMPLES :=
  claim_C10 (mockFifo 300 2147483648) 2147483648 () (by decide) (by decide)

example : rnd32 1 = 1 := by decide
example : rnd32 (1 / 2) = 1 / 2 := by decide
example : rnd32 16383 = 16383 := by decide
example : rnd32 ((16383 : ℚ) / 254) = 129 / 2 := by decide
example : rnd32 ((16383 : ℚ) / 14) = 9586395 / 2 ^ 13 := by decide
example : sampleWord 256 127 = some 0x80000000 := by decide
example : sampleWord 256 0 = some 0 := by decide
example : sampleWord 256 255 = some 0 := by decide
example : sampleWord 16 7 = some (8191 * 2 ^ 18) := by decide
example : specWord 16 7 = 8192 * 2 ^ 18 := by decide
example : rampValue 2 0 = none := by decide
example : GenerateRampWave [7, 7, 7] 3 = some [0, 16383 * 2 ^ 18, 0] := by decide

end Spec2Proof
